import Mathlib

/-!
Verification development for the CAN frontend ingestion pipeline.

The definitions below are a shallow embedding of the Python sources:
- `src/communication/zmq_worker.py` (`ZMQWorker._poll_messages`,
  `ZMQWorker._process_message`): backlog collapse, signal filtering,
  rate limiting;
- `src/gui/main_window.py` (`CANDashboardMainWindow.update_display_data`,
  `_process_pending_updates`): immediate/buffered dispatch and the
  pending-update buffer;
- `src/widgets/gauges.py` (`RoundGauge.set_value`, `set_range`): the
  per-sink responsiveness threshold gate.

Python floats are modelled as rationals (`ℚ`), Python dicts as
insertion-ordered association lists (`List (String × α)`) with
update-or-append assignment, and Qt signal emissions / widget method
calls as explicit event values collected in lists.
-/

/-- Python's `str.lower()` on the ASCII signal names this system uses:
lowercase every character. -/
def String.lower (s : String) : String := String.mk (s.data.map Char.toLower)

namespace CanFrontend

/-- Python dict lookup `d.get(k)` / `d[k]`: first entry with the given key. -/
def dictGet {α : Type} : List (String × α) → String → Option α
  | [], _ => none
  | (k', v') :: rest, k => if k' = k then some v' else dictGet rest k

/-- Python dict assignment `d[k] = v`: update the entry in place if the key
is present, otherwise append at the end (insertion-ordered semantics). -/
def dictInsert {α : Type} : List (String × α) → String → α → List (String × α)
  | [], k, v => [(k, v)]
  | (k', v') :: rest, k, v =>
      if k' = k then (k, v) :: rest else (k', v') :: dictInsert rest k v

/-- Value of the last entry with the given key, if any. -/
def lookupLast {α : Type} : List (String × α) → String → Option α
  | [], _ => none
  | (k', v') :: rest, k =>
      match lookupLast rest k with
      | some w => some w
      | none => if k' = k then some v' else none

theorem dictGet_dictInsert {α : Type} (d : List (String × α)) (k s : String) (v : α) :
    dictGet (dictInsert d k v) s = if k = s then some v else dictGet d s := by
  induction d with
  | nil =>
      by_cases h : k = s <;> simp [dictInsert, dictGet, h]
  | cons p rest ih =>
      obtain ⟨k', v'⟩ := p
      by_cases hk : k' = k
      · subst hk
        by_cases hs : k' = s <;> simp [dictInsert, dictGet, hs]
      · by_cases hs : k' = s
        · subst hs
          have hks : ¬ k = k' := fun h => hk h.symm
          simp [dictInsert, dictGet, hk, hks]
        · simp [dictInsert, dictGet, hk, hs, ih]

theorem dictGet_eq_none_of_not_mem_keys {α : Type} (d : List (String × α)) (k : String)
    (h : k ∉ d.map Prod.fst) : dictGet d k = none := by
  induction d with
  | nil => rfl
  | cons p rest ih =>
      obtain ⟨k', v'⟩ := p
      simp only [List.map_cons, List.mem_cons] at h
      push_neg at h
      have hne : ¬ k' = k := fun hh => h.1 hh.symm
      simp [dictGet, hne, ih h.2]

theorem lookupLast_eq_none_of_not_mem_keys {α : Type} (d : List (String × α)) (k : String)
    (h : k ∉ d.map Prod.fst) : lookupLast d k = none := by
  induction d with
  | nil => rfl
  | cons p rest ih =>
      obtain ⟨k', v'⟩ := p
      simp only [List.map_cons, List.mem_cons] at h
      push_neg at h
      have hne : ¬ k' = k := fun hh => h.1 hh.symm
      simp [lookupLast, ih h.2, hne]

/-- For a duplicate-free association list (every Python dict), the first and
the last entries with a key coincide. -/
theorem lookupLast_eq_dictGet {α : Type} (d : List (String × α)) (k : String)
    (hnd : (d.map Prod.fst).Nodup) : lookupLast d k = dictGet d k := by
  induction d with
  | nil => rfl
  | cons p rest ih =>
      obtain ⟨k', v'⟩ := p
      simp only [List.map_cons, List.nodup_cons] at hnd
      by_cases hs : k' = k
      · subst hs
        have hrest : lookupLast rest k' = none :=
          lookupLast_eq_none_of_not_mem_keys rest k' hnd.1
        simp [lookupLast, dictGet, hrest]
      · simp [lookupLast, dictGet, hs, ih hnd.2]
        cases h : lookupLast rest k <;> simp [ih hnd.2] at h <;> simp [h]

/-- A JSON value carried in a decoded envelope's data map, as seen by the
pipeline: either something `float(value)` converts to (modelled by its
rational conversion result) or something on which the conversion raises. -/
inductive Value : Type
  | num (q : ℚ)
  | invalid
deriving DecidableEq

/-- One transport message after `recv_json`, per the wire schema:
`{"type":"decoded",...}` with a signal data map, or `{"type":"raw",...}`. -/
inductive Envelope : Type
  | decoded (timestamp : ℚ) (idHex : String) (name : String)
      (data : List (String × Value))
  | raw (timestamp : ℚ) (idHex : String) (dataHex : String)
deriving DecidableEq

/-- `m.get('type') == 'decoded'`. -/
def Envelope.isDecoded : Envelope → Bool
  | .decoded _ _ _ _ => true
  | .raw _ _ _ => false

/-- The signal data map of a decoded envelope (`m.get('data', {})` yields
`{}` on raw envelopes, which carry no data map). -/
def Envelope.dataMap : Envelope → List (String × Value)
  | .decoded _ _ _ data => data
  | .raw _ _ _ => []

/-- Keys of a decoded envelope's data map are pairwise distinct: every
Python dict (deserialized from a JSON object) has unique keys. -/
def Envelope.keysNodup (m : Envelope) : Prop :=
  (m.dataMap.map Prod.fst).Nodup

instance (m : Envelope) : Decidable m.keysNodup := by
  unfold Envelope.keysNodup
  infer_instance

/-- The `signal_map` accumulation of `ZMQWorker._poll_messages`
(collapse branch, `MERGE_SIGNALS_DURING_COLLAPSE`): for each drained
message of type `decoded`, fold its data entries into the map by dict
assignment, so the last drained value per key wins. -/
def buildSignalMap : List Envelope → List (String × Value) → List (String × Value)
  | [], acc => acc
  | m :: rest, acc =>
      match m with
      | .decoded _ _ _ data =>
          buildSignalMap rest (data.foldl (fun a p => dictInsert a p.1 p.2) acc)
      | .raw _ _ _ => buildSignalMap rest acc

/-- The first drained message of type `decoded` (`combined` is initialised
from the first decoded message's non-`data` fields). -/
def firstDecoded : List Envelope → Option Envelope
  | [] => none
  | m :: rest => if m.isDecoded then some m else firstDecoded rest

/-- The merged synthetic envelope built by the
`MERGE_SIGNALS_DURING_COLLAPSE` branch of `_poll_messages`: header fields
from the first decoded drained message, data map = accumulated
`signal_map`; `none` when no decoded message was drained
(`combined is None`). -/
def collapseMerge (msgs : List Envelope) : Option Envelope :=
  match firstDecoded msgs with
  | some (.decoded t idh n _) => some (.decoded t idh n (buildSignalMap msgs []))
  | _ => none

/-- The `merge = false` branch: walk the drained list in reverse and keep
the first decoded message found (the last decoded one in drain order). -/
def lastDecoded (msgs : List Envelope) : Option Envelope :=
  firstDecoded msgs.reverse

/-- The list of envelopes handed to `_process_message` by one
`collapse_latest` poll, as a function of the drained burst
(`latest_messages`) and the `MERGE_SIGNALS_DURING_COLLAPSE` flag. -/
def collapseLatestDispatch (mergeFlag : Bool) (msgs : List Envelope) : List Envelope :=
  if msgs = [] then []
  else if mergeFlag then (collapseMerge msgs).toList
  else (lastDecoded msgs).toList

/-- Spec-side reference definition (written from the spec's words, for
comparison with the code's merge): "keep the value from the last envelope
in drain order that contains it" — the value of key `s` in the last
decoded envelope of the burst whose data map contains `s`. -/
def specLastValue : List Envelope → String → Option Value
  | [], _ => none
  | m :: rest, s =>
      match specLastValue rest s with
      | some v => some v
      | none =>
          match m with
          | .decoded _ _ _ data => dictGet data s
          | .raw _ _ _ => none

/-- The configuration constants of `config/settings.py` consumed by
`ZMQWorker._process_message`, kept abstract so theorems quantify over
configurations (the shipped values are `whitelist = []`, `blacklist = []`,
`rateLimits = {}`, `maxSignalsPerMessage = 0`, `fastForward = true`). -/
structure FilterConfig : Type where
  whitelist : List String
  blacklist : List String
  rateLimits : List (String × ℚ)
  maxSignalsPerMessage : Nat
  fastForward : Bool
deriving DecidableEq

/-- `ZMQWorker._last_signal_emit`: lowercase signal name → monotonic time
of the last rate-limiter acceptance. -/
structure FilterState : Type where
  lastEmit : List (String × ℚ)
deriving DecidableEq

/-- `try: self.new_signal_value.emit(signal_name, float(value)) except: pass`
— the emission, or `none` when the float conversion raises. -/
def tryEmit (name : String) (v : Value) : Option (String × ℚ) :=
  match v with
  | .num q => some (name, q)
  | .invalid => none

/-- The body of the per-signal loop of `ZMQWorker._process_message`
(whitelist, blacklist, rate limiting, emission), for one data entry
`(name, v)` processed at monotonic time `now`. Returns the updated
rate-limiter state and the emitted `(signal_name, float(value))` pair,
if any. -/
def processSignal (cfg : FilterConfig) (st : FilterState) (now : ℚ)
    (name : String) (v : Value) : FilterState × Option (String × ℚ) :=
  let sigL := name.lower
  if cfg.whitelist ≠ [] ∧ sigL ∉ cfg.whitelist then (st, none)
  else if sigL ∈ cfg.blacklist then (st, none)
  else
    match dictGet cfg.rateLimits sigL with
    | some minInterval =>
        if now - ((dictGet st.lastEmit sigL).getD 0) < minInterval then (st, none)
        else (⟨dictInsert st.lastEmit sigL now⟩, tryEmit name v)
    | none => (st, tryEmit name v)

/-- The per-signal loop of `_process_message` over the (already capped and
possibly compressed) data entries; `clock i` is the `time.monotonic()`
reading taken while processing the `i`-th entry. -/
def processEntries (cfg : FilterConfig) (clock : Nat → ℚ) :
    Nat → FilterState → List (String × Value) → FilterState × List (String × ℚ)
  | _, st, [] => (st, [])
  | i, st, (n, v) :: rest =>
      let r := processSignal cfg st (clock i) n v
      let rec' := processEntries cfg clock (i + 1) r.1 rest
      (rec'.1, r.2.toList ++ rec'.2)

/-- Qt signal emissions performed by `ZMQWorker._process_message`. -/
inductive Emission : Type
  | decodedMsg (m : Envelope)
  | rawMsg (m : Envelope)
  | signal (name : String) (value : ℚ)
deriving DecidableEq

/-- Whether an emission is an invocation of the raw-message handler
(`raw_message_received.emit`). -/
def Emission.isRawMsg : Emission → Bool
  | .rawMsg _ => true
  | _ => false

/-- `ZMQWorker._process_message`: decoded messages are re-emitted whole,
their data entries capped at `MAX_SIGNALS_PER_MESSAGE` (when positive),
optionally compressed to the latest value per key
(`FAST_FORWARD_SIGNAL_UPDATES`), then filtered and emitted per signal;
raw messages are re-emitted on the raw handler. -/
def processMessage (cfg : FilterConfig) (clock : Nat → ℚ) (st : FilterState)
    (m : Envelope) : FilterState × List Emission :=
  match m with
  | .decoded _ _ _ data =>
      let dataItems := data
      let dataItems :=
        if cfg.maxSignalsPerMessage > 0 ∧ dataItems.length > cfg.maxSignalsPerMessage
        then dataItems.take cfg.maxSignalsPerMessage else dataItems
      let dataIterable :=
        if cfg.fastForward
        then dataItems.foldl (fun a p => dictInsert a p.1 p.2) []
        else dataItems
      let r := processEntries cfg clock 0 st dataIterable
      (r.1, Emission.decodedMsg m :: r.2.map (fun p => Emission.signal p.1 p.2))
  | .raw _ _ _ => (st, [Emission.rawMsg m])

/-- `_process_message` applied to each envelope of a list in order,
threading the limiter state and concatenating the emissions. -/
def processMessages (cfg : FilterConfig) (clock : Nat → ℚ) :
    FilterState → List Envelope → FilterState × List Emission
  | st, [] => (st, [])
  | st, m :: rest =>
      let r := processMessage cfg clock st m
      let rec' := processMessages cfg clock r.1 rest
      (rec'.1, r.2 ++ rec'.2)

/-- One `collapse_latest` poll tick after draining `msgs`: each envelope
selected by the collapse is handed to `_process_message` in order. -/
def pollCollapseLatest (cfg : FilterConfig) (clock : Nat → ℚ) (st : FilterState)
    (mergeFlag : Bool) (msgs : List Envelope) : FilterState × List Emission :=
  processMessages cfg clock st (collapseLatestDispatch mergeFlag msgs)

/-- Trace semantics of repeated `processSignal` calls: each event is a
`(now, name, value)` triple processed in sequence; the output records each
emission together with its acceptance time. -/
def runTrace (cfg : FilterConfig) :
    FilterState → List (ℚ × String × Value) → FilterState × List (ℚ × String × ℚ)
  | st, [] => (st, [])
  | st, (now, n, v) :: rest =>
      let r := processSignal cfg st now n v
      let rec' := runTrace cfg r.1 rest
      (rec'.1,
        (match r.2 with
         | some (nm, q) => [(now, nm, q)]
         | none => []) ++ rec'.2)

/-- Acceptance times, in order, of the emitted samples whose lowercased
name is `sigL`. -/
def emissionTimesFor (sigL : String) (out : List (ℚ × String × ℚ)) : List ℚ :=
  out.filterMap (fun e => if e.2.1.lower = sigL then some e.1 else none)

/-- One entry of `CANDashboardMainWindow.pending_gauge_updates`:
`{'value': value, 'time': time.time()}`. -/
structure PendingEntry : Type where
  value : ℚ
  time : ℚ
deriving DecidableEq

/-- A widget method call performed by the main window on one of its
display elements. -/
inductive SinkCall : Type
  | gaugeSet (sigL : String) (value : ℚ)
  | indicatorSet (sigL : String) (isOn : Bool)
  | displayText (sigL : String) (text : String)
  | displayValue (sigL : String) (value : ℚ)
deriving DecidableEq

/-- `gear_map = {1:'1',...,6:'6',0:'N',-1:'R',99:'P'}`. -/
def gearMap : List (Int × String) :=
  [(1, "1"), (2, "2"), (3, "3"), (4, "4"), (5, "5"), (6, "6"),
   (0, "N"), (-1, "R"), (99, "P")]

/-- Python `int(value)` on a float: truncation toward zero. -/
def pyInt (q : ℚ) : Int := if 0 ≤ q then ⌊q⌋ else ⌈q⌉

/-- `gear_map.get(int(value), str(int(value)))`. -/
def gearText (i : Int) : String :=
  ((gearMap.find? (fun p => p.1 = i)).map Prod.snd).getD (toString i)

/-- The state of `CANDashboardMainWindow` relevant to signal dispatch:
registered sinks (lowercase keys of `self.gauges`, `self.indicators` with
their `config.threshold` when present, `self.displays`), the critical set,
the `REALTIME_GAUGE_UPDATES` and `DISPLAY_SIGNAL_WHITELIST` configuration,
and the pending-update buffer. -/
structure MainWindow : Type where
  whitelist : List String
  realtimeGaugeUpdates : Bool
  criticalSignals : List String
  gauges : List String
  indicators : List (String × Option ℚ)
  displays : List String
  pending : List (String × PendingEntry)
deriving DecidableEq

/-- `CANDashboardMainWindow.update_display_data(signal_name, value)` at
wall-clock time `now` (`time.time()`): optional whitelist filter, then
immediate-vs-buffered gauge dispatch, indicator update, and seven-segment
display update. Returns the new window state and the widget calls made. -/
def update_display_data (w : MainWindow) (signal_name : String) (value : ℚ)
    (now : ℚ) : MainWindow × List SinkCall :=
  let signal_lower := signal_name.lower
  if w.whitelist ≠ [] ∧ signal_lower ∉ w.whitelist then (w, [])
  else
    let gaugePart : MainWindow × List SinkCall :=
      if signal_lower ∈ w.gauges then
        if w.realtimeGaugeUpdates ∨ signal_lower ∈ w.criticalSignals then
          (w, [SinkCall.gaugeSet signal_lower value])
        else
          ({ w with pending := dictInsert w.pending signal_name ⟨value, now⟩ }, [])
      else (w, [])
    let indicatorCalls : List SinkCall :=
      match dictGet w.indicators signal_lower with
      | some thr =>
          [SinkCall.indicatorSet signal_lower (decide (value > thr.getD (1/2)))]
      | none => []
    let displayCalls : List SinkCall :=
      if signal_lower ∈ w.displays then
        if signal_lower = "gear" ∨ signal_lower = "current_gear" then
          [SinkCall.displayText signal_lower (gearText (pyInt value))]
        else [SinkCall.displayValue signal_lower value]
      else []
    (gaugePart.1, gaugePart.2 ++ indicatorCalls ++ displayCalls)

/-- `CANDashboardMainWindow._process_pending_updates`: if the pending
buffer is non-empty, copy it, clear it, and apply each entry's value to
the gauge registered under the lowercased name, dropping entries with no
registered gauge. -/
def processPendingUpdates (w : MainWindow) : MainWindow × List SinkCall :=
  if w.pending = [] then (w, [])
  else
    let updates := w.pending
    ({ w with pending := [] },
      updates.filterMap (fun p =>
        if p.1.lower ∈ w.gauges
        then some (SinkCall.gaugeSet p.1.lower p.2.value)
        else none))

/-- `GAUGE_IMMEDIATE_THRESHOLD = 0.50` (config/settings.py). -/
def GAUGE_IMMEDIATE_THRESHOLD : ℚ := 1/2

/-- `GAUGE_SKIP_THRESHOLD = 0.0001` (config/settings.py). -/
def GAUGE_SKIP_THRESHOLD : ℚ := 1/10000

/-- The threshold-gate state of a `RoundGauge` (widgets/gauges.py). -/
structure RoundGauge : Type where
  min_value : ℚ
  max_value : ℚ
  current_value : ℚ
deriving DecidableEq

/-- The redraw effect of one `RoundGauge.set_value` call: a synchronous
`self.repaint()`, a deferred `self.update()` scheduling, or neither. -/
inductive RedrawAction : Type
  | repaintNow
  | deferredUpdate
  | skip
deriving DecidableEq

/-- `change_percentage = abs(new_value - current_value) / value_range`
computed by `RoundGauge.set_value` (meaningful when the range is
positive). -/
def RoundGauge.change_percentage (g : RoundGauge) (value : ℚ) : ℚ :=
  |max g.min_value (min g.max_value value) - g.current_value|
    / (g.max_value - g.min_value)

/-- `RoundGauge.set_value(value)`: clamp, then, for a positive range,
immediate repaint when the change ratio exceeds
`GAUGE_IMMEDIATE_THRESHOLD`, skip (no mutation, no redraw) when it is
below `GAUGE_SKIP_THRESHOLD`, and otherwise — as for a non-positive
range — store the clamped value and schedule a deferred update. -/
def RoundGauge.set_value (g : RoundGauge) (value : ℚ) : RoundGauge × RedrawAction :=
  let new_value := max g.min_value (min g.max_value value)
  let value_range := g.max_value - g.min_value
  if value_range > 0 then
    let change_percentage := |new_value - g.current_value| / value_range
    if change_percentage > GAUGE_IMMEDIATE_THRESHOLD then
      ({ g with current_value := new_value }, RedrawAction.repaintNow)
    else if change_percentage < GAUGE_SKIP_THRESHOLD then
      (g, RedrawAction.skip)
    else
      ({ g with current_value := new_value }, RedrawAction.deferredUpdate)
  else
    ({ g with current_value := new_value }, RedrawAction.deferredUpdate)

/-- `RoundGauge.set_range(min_value, max_value)`: store the new bounds and
clamp the current value to them. -/
def RoundGauge.set_range (g : RoundGauge) (mn mx : ℚ) : RoundGauge :=
  { min_value := mn, max_value := mx,
    current_value := max mn (min mx g.current_value) }

/-! ## Helper lemmas about the per-signal filter -/

theorem tryEmit_some (en : String) (v : Value) (p : String × ℚ)
    (h : tryEmit en v = some p) : p.1 = en ∧ v = Value.num p.2 := by
  cases v with
  | num q => simp [tryEmit] at h; simp [← h, tryEmit]
  | invalid => simp [tryEmit] at h

/-- Every `processSignal` call either leaves the limiter state unchanged
(emitting nothing), emits with no rate limit configured, or accepts under
a configured rate limit, stamping the state with `now`. -/
theorem processSignal_cases (cfg : FilterConfig) (st : FilterState) (now : ℚ)
    (en : String) (v : Value) :
    ((processSignal cfg st now en v).1 = st ∧
      (processSignal cfg st now en v).2 = none) ∨
    ((processSignal cfg st now en v).1 = st ∧
      dictGet cfg.rateLimits en.lower = none ∧
      (processSignal cfg st now en v).2 = tryEmit en v) ∨
    (∃ k, dictGet cfg.rateLimits en.lower = some k ∧
      ¬ (now - (dictGet st.lastEmit en.lower).getD 0 < k) ∧
      (processSignal cfg st now en v).1 = ⟨dictInsert st.lastEmit en.lower now⟩ ∧
      (processSignal cfg st now en v).2 = tryEmit en v) := by
  unfold processSignal
  by_cases hwl : cfg.whitelist ≠ [] ∧ en.lower ∉ cfg.whitelist
  · left; simp [hwl]
  · by_cases hbl : en.lower ∈ cfg.blacklist
    · left; simp [hwl, hbl]
    · rcases hrl : dictGet cfg.rateLimits en.lower with _ | k
      · right; left; simp [hwl, hbl, hrl]
      · by_cases hlt : now - (dictGet st.lastEmit en.lower).getD 0 < k
        · left; simp [hwl, hbl, hrl, hlt]
        · right; right
          refine ⟨k, ?_, hlt, ?_, ?_⟩ <;> simp [hwl, hbl, hrl, hlt]

/-- An emission's name is the processed entry's name, and it passed the
whitelist and blacklist gates. -/
theorem processSignal_some_gate (cfg : FilterConfig) (st : FilterState) (now : ℚ)
    (en : String) (v : Value) (n : String) (q : ℚ)
    (h : (processSignal cfg st now en v).2 = some (n, q)) :
    n = en ∧ (cfg.whitelist = [] ∨ en.lower ∈ cfg.whitelist) ∧
      en.lower ∉ cfg.blacklist := by
  have hwl : ¬ (cfg.whitelist ≠ [] ∧ en.lower ∉ cfg.whitelist) := by
    intro hc
    unfold processSignal at h
    simp [hc] at h
  have hbl : en.lower ∉ cfg.blacklist := by
    intro hc
    unfold processSignal at h
    simp [hwl, hc] at h
  have hname : n = en := by
    rcases processSignal_cases cfg st now en v with hcase | hcase | hcase
    · rw [hcase.2] at h; exact absurd h (by simp)
    · rw [hcase.2.2] at h
      exact (tryEmit_some en v (n, q) h).1
    · obtain ⟨k, _, _, _, h2⟩ := hcase
      rw [h2] at h
      exact (tryEmit_some en v (n, q) h).1
  refine ⟨hname, ?_, hbl⟩
  by_cases hempty : cfg.whitelist = []
  · exact Or.inl hempty
  · right
    by_contra hmem
    exact hwl ⟨hempty, hmem⟩

/-- A `processSignal` call for one name leaves the limiter entry of every
other lowercased name unchanged. -/
theorem processSignal_other_key (cfg : FilterConfig) (st : FilterState) (now : ℚ)
    (en : String) (v : Value) (s : String) (hne : en.lower ≠ s) :
    dictGet (processSignal cfg st now en v).1.lastEmit s = dictGet st.lastEmit s := by
  rcases processSignal_cases cfg st now en v with hcase | hcase | hcase
  · rw [hcase.1]
  · rw [hcase.1]
  · obtain ⟨k, _, _, h1, _⟩ := hcase
    rw [h1]
    simp only
    rw [dictGet_dictInsert]
    simp [hne]

/-- Whatever `firstDecoded` finds is a decoded envelope. -/
theorem firstDecoded_isDecoded (msgs : List Envelope) (m : Envelope)
    (h : firstDecoded msgs = some m) : m.isDecoded = true := by
  induction msgs with
  | nil => simp [firstDecoded] at h
  | cons x rest ih =>
      by_cases hx : x.isDecoded
      · simp [firstDecoded, hx] at h
        rw [← h]
        exact hx
      · simp only [firstDecoded, Bool.not_eq_true] at h hx
        rw [hx] at h
        simp at h
        exact ih h

/-- The merged synthetic envelope is always of type `decoded`. -/
theorem collapseMerge_isDecoded (msgs : List Envelope) (m : Envelope)
    (h : collapseMerge msgs = some m) : m.isDecoded = true := by
  unfold collapseMerge at h
  rcases hf : firstDecoded msgs with _ | fd
  · rw [hf] at h; simp at h
  · rw [hf] at h
    cases fd with
    | decoded t idh n data =>
        simp at h
        rw [← h]
        rfl
    | raw t idh dh =>
        have := firstDecoded_isDecoded msgs (.raw t idh dh) hf
        simp [Envelope.isDecoded] at this

/-- Every envelope the `collapse_latest` strategy dispatches is decoded. -/
theorem collapseDispatch_all_decoded (mergeFlag : Bool) (msgs : List Envelope) :
    ∀ m ∈ collapseLatestDispatch mergeFlag msgs, m.isDecoded = true := by
  intro m hm
  unfold collapseLatestDispatch at hm
  by_cases hnil : msgs = []
  · simp [hnil] at hm
  · rw [if_neg hnil] at hm
    by_cases hmerge : mergeFlag = true
    · rw [if_pos hmerge] at hm
      rcases hc : collapseMerge msgs with _ | c
      · rw [hc] at hm; simp at hm
      · rw [hc] at hm
        simp at hm
        rw [hm]
        exact collapseMerge_isDecoded msgs c hc
    · rw [if_neg hmerge] at hm
      rcases hl : lastDecoded msgs with _ | c
      · rw [hl] at hm; simp at hm
      · rw [hl] at hm
        simp at hm
        rw [hm]
        exact firstDecoded_isDecoded msgs.reverse c hl

/-- `_process_message` on a decoded envelope performs no raw-handler
emission. -/
theorem processMessage_no_raw (cfg : FilterConfig) (clock : Nat → ℚ)
    (st : FilterState) (m : Envelope) (h : m.isDecoded = true) :
    ((processMessage cfg clock st m).2.filter Emission.isRawMsg) = [] := by
  cases m with
  | raw t idh dh => simp [Envelope.isDecoded] at h
  | decoded t idh n data =>
      rw [List.filter_eq_nil_iff]
      intro e he
      simp only [processMessage, List.mem_cons] at he
      cases he with
      | inl hd => rw [hd]; simp [Emission.isRawMsg]
      | inr hmem =>
          rw [List.mem_map] at hmem
          obtain ⟨p, _, hp⟩ := hmem
          rw [← hp]
          simp [Emission.isRawMsg]

/-- Looking up a key after folding a data list into an accumulator by dict
assignment: the last entry of the data list wins, else the accumulator. -/
theorem dictGet_foldIns {α : Type} (data : List (String × α))
    (acc : List (String × α)) (s : String) :
    dictGet (data.foldl (fun a p => dictInsert a p.1 p.2) acc) s =
      match lookupLast data s with
      | some v => some v
      | none => dictGet acc s := by
  induction data generalizing acc with
  | nil => rfl
  | cons p rest ih =>
      obtain ⟨k, v⟩ := p
      simp only [List.foldl_cons]
      rw [ih]
      cases h : lookupLast rest s with
      | some w => simp [lookupLast, h]
      | none =>
          simp only [lookupLast, h]
          rw [dictGet_dictInsert]
          by_cases hk : k = s <;> simp [hk]

/-- The accumulated `signal_map` holds, for each key, the value of the
last drained decoded envelope containing that key, falling back to the
accumulator for absent keys. -/
theorem dictGet_buildSignalMap (msgs : List Envelope)
    (acc : List (String × Value)) (s : String)
    (hnd : ∀ m ∈ msgs, m.keysNodup) :
    dictGet (buildSignalMap msgs acc) s =
      match specLastValue msgs s with
      | some v => some v
      | none => dictGet acc s := by
  induction msgs generalizing acc with
  | nil => rfl
  | cons m rest ih =>
      have hrest : ∀ x ∈ rest, x.keysNodup :=
        fun x hx => hnd x (List.mem_cons_of_mem m hx)
      cases m with
      | raw t idh dh =>
          simp only [buildSignalMap, specLastValue]
          rw [ih _ hrest]
          cases specLastValue rest s <;> simp
      | decoded t idh n data =>
          simp only [buildSignalMap, specLastValue]
          rw [ih _ hrest, dictGet_foldIns]
          have hkey : lookupLast data s = dictGet data s :=
            lookupLast_eq_dictGet data s (hnd _ (List.mem_cons_self _ _))
          rw [hkey]
          cases specLastValue rest s <;> cases dictGet data s <;> simp

/-- A burst containing a decoded envelope has a first decoded envelope. -/
theorem firstDecoded_isSome (msgs : List Envelope)
    (h : ∃ m ∈ msgs, m.isDecoded = true) :
    ∃ fd, firstDecoded msgs = some fd := by
  induction msgs with
  | nil => simp at h
  | cons x rest ih =>
      by_cases hx : x.isDecoded = true
      · exact ⟨x, by simp [firstDecoded, hx]⟩
      · obtain ⟨m, hm, hdec⟩ := h
        rcases List.mem_cons.mp hm with rfl | hmr
        · exact absurd hdec hx
        · obtain ⟨fd, hfd⟩ := ih ⟨m, hmr, hdec⟩
          refine ⟨fd, ?_⟩
          rw [Bool.not_eq_true] at hx
          simp [firstDecoded, hx, hfd]

/-! ## Theorems for the claims -/

/-- C7: for a `RoundGauge` with `min=0, max=100` and the configured
thresholds (`skipThreshold = 0.0001`, `immediateThreshold = 0.5`), starting
from `current = 0`: `set_value 60` yields change ratio `0.6`, repaints
synchronously and sets `current` to `60`; `set_value 60.0001` yields change
ratio `0.000001`, triggers no redraw and leaves `current` at `60`;
`set_value 65` yields change ratio `0.05`, sets `current` to `65` and only
schedules a deferred update. -/
theorem c7_threshold_gate_scenario :
    RoundGauge.change_percentage ⟨0, 100, 0⟩ 60 = 3/5 ∧
    RoundGauge.set_value ⟨0, 100, 0⟩ 60 = (⟨0, 100, 60⟩, RedrawAction.repaintNow) ∧
    RoundGauge.change_percentage ⟨0, 100, 60⟩ (600001/10000) = 1/1000000 ∧
    RoundGauge.set_value ⟨0, 100, 60⟩ (600001/10000) = (⟨0, 100, 60⟩, RedrawAction.skip) ∧
    RoundGauge.change_percentage ⟨0, 100, 60⟩ 65 = 1/20 ∧
    RoundGauge.set_value ⟨0, 100, 60⟩ 65 = (⟨0, 100, 65⟩, RedrawAction.deferredUpdate) := by
  refine ⟨?_, ?_, ?_, ?_, ?_, ?_⟩
  · norm_num [RoundGauge.change_percentage, max_def, min_def]
  · norm_num [RoundGauge.set_value, GAUGE_IMMEDIATE_THRESHOLD, GAUGE_SKIP_THRESHOLD,
      max_def, min_def]
  · norm_num [RoundGauge.change_percentage, max_def, min_def]
    rw [abs_of_nonneg (by norm_num : (0:ℚ) ≤ 1/10000)]
    norm_num
  · norm_num [RoundGauge.set_value, GAUGE_IMMEDIATE_THRESHOLD, GAUGE_SKIP_THRESHOLD,
      max_def, min_def]
    rw [abs_of_nonneg (by norm_num : (0:ℚ) ≤ 1/10000)]
    norm_num
  · norm_num [RoundGauge.change_percentage, max_def, min_def]
  · norm_num [RoundGauge.set_value, GAUGE_IMMEDIATE_THRESHOLD, GAUGE_SKIP_THRESHOLD,
      max_def, min_def]

/-- C8, counterexample: on a degenerate range (`min = max = 0`),
`set_value 5` schedules only a deferred `update()`; it does not trigger the
synchronous repaint the claim asserts. -/
theorem c8_degenerate_counterexample :
    (RoundGauge.set_value ⟨0, 0, 0⟩ 5).2 = RedrawAction.deferredUpdate ∧
    (RoundGauge.set_value ⟨0, 0, 0⟩ 5).2 ≠ RedrawAction.repaintNow := by
  constructor
  · norm_num [RoundGauge.set_value, max_def, min_def]
  · norm_num [RoundGauge.set_value, max_def, min_def]
    decide

/-- C8, amended: for every threshold-gate sink whose range `max - min` is
at most zero, every `set_value v` call sets `current` to the clamped value
and schedules a deferred redraw (`update()`) before returning — not a
synchronous repaint. -/
theorem c8_degenerate_range_deferred (g : RoundGauge) (v : ℚ)
    (h : g.max_value - g.min_value ≤ 0) :
    RoundGauge.set_value g v =
      ({ g with current_value := max g.min_value (min g.max_value v) },
        RedrawAction.deferredUpdate) := by
  have hnot : ¬ (g.max_value - g.min_value > 0) := not_lt.mpr h
  simp [RoundGauge.set_value, hnot]

/-- C8, witness for the amended theorem at `g = ⟨0, 0, 0⟩`, `v = 5`. -/
theorem c8_degenerate_range_deferred_witness :
    ((0 : ℚ) - 0 ≤ 0) ∧
    RoundGauge.set_value ⟨0, 0, 0⟩ 5 = (⟨0, 0, 0⟩, RedrawAction.deferredUpdate) := by
  refine ⟨by norm_num, ?_⟩
  rw [c8_degenerate_range_deferred ⟨0, 0, 0⟩ 5 (by norm_num)]
  decide

/-- C9: for a sink with `min ≤ max` whose current value satisfies
`min ≤ current ≤ max`, the invariant still holds after any `set_value v`
(and the bounds are untouched); `set_range` re-establishes the invariant
for any new bounds `mn ≤ mx`. -/
theorem c9_sink_invariant (g : RoundGauge) (v mn mx : ℚ)
    (hle : g.min_value ≤ g.max_value)
    (h1 : g.min_value ≤ g.current_value) (h2 : g.current_value ≤ g.max_value)
    (hr : mn ≤ mx) :
    (g.min_value ≤ (RoundGauge.set_value g v).1.current_value ∧
      (RoundGauge.set_value g v).1.current_value ≤ g.max_value ∧
      (RoundGauge.set_value g v).1.min_value = g.min_value ∧
      (RoundGauge.set_value g v).1.max_value = g.max_value) ∧
    (mn ≤ (RoundGauge.set_range g mn mx).current_value ∧
      (RoundGauge.set_range g mn mx).current_value ≤ mx) := by
  have hnew1 : g.min_value ≤ max g.min_value (min g.max_value v) := le_max_left _ _
  have hnew2 : max g.min_value (min g.max_value v) ≤ g.max_value :=
    max_le hle (min_le_left _ _)
  constructor
  · simp only [RoundGauge.set_value]
    split_ifs <;> simp_all
  · exact ⟨le_max_left _ _, max_le hr (min_le_left _ _)⟩

/-- C9, witness at `g = ⟨0, 100, 50⟩`, `v = 200`, new range `[0, 10]`. -/
theorem c9_sink_invariant_witness :
    ((0 : ℚ) ≤ 100 ∧ (0 : ℚ) ≤ 50 ∧ (50 : ℚ) ≤ 100 ∧ (0 : ℚ) ≤ 10) ∧
    (((0 : ℚ) ≤ (RoundGauge.set_value ⟨0, 100, 50⟩ 200).1.current_value ∧
      (RoundGauge.set_value ⟨0, 100, 50⟩ 200).1.current_value ≤ 100 ∧
      (RoundGauge.set_value ⟨0, 100, 50⟩ 200).1.min_value = 0 ∧
      (RoundGauge.set_value ⟨0, 100, 50⟩ 200).1.max_value = 100) ∧
    ((0 : ℚ) ≤ (RoundGauge.set_range ⟨0, 100, 50⟩ 0 10).current_value ∧
      (RoundGauge.set_range ⟨0, 100, 50⟩ 0 10).current_value ≤ 10)) :=
  ⟨by norm_num,
    c9_sink_invariant ⟨0, 100, 50⟩ 200 0 10 (by norm_num) (by norm_num)
      (by norm_num) (by norm_num)⟩

/-- C5: for a sample that passes the whitelist and whose lowercased name
has a registered gauge, `update_display_data` applies the value to the
gauge synchronously if and only if the realtime flag is set or the
lowercased name is critical; otherwise it writes the sample into the
pending buffer under the original name (overwriting any unflushed prior
entry for that name) and leaves the rest of the state alone. -/
theorem c5_dispatch_classification (w : MainWindow) (signal_name : String)
    (value now : ℚ)
    (hwl : ¬ (w.whitelist ≠ [] ∧ signal_name.lower ∉ w.whitelist))
    (hg : signal_name.lower ∈ w.gauges) :
    (SinkCall.gaugeSet signal_name.lower value ∈
        (update_display_data w signal_name value now).2 ↔
      (w.realtimeGaugeUpdates = true ∨ signal_name.lower ∈ w.criticalSignals)) ∧
    ((w.realtimeGaugeUpdates = true ∨ signal_name.lower ∈ w.criticalSignals) →
      (update_display_data w signal_name value now).1 = w) ∧
    (¬ (w.realtimeGaugeUpdates = true ∨ signal_name.lower ∈ w.criticalSignals) →
      (update_display_data w signal_name value now).1.pending =
        dictInsert w.pending signal_name ⟨value, now⟩ ∧
      dictGet (update_display_data w signal_name value now).1.pending signal_name =
        some ⟨value, now⟩) := by
  unfold update_display_data
  simp only [if_neg hwl, if_pos hg]
  by_cases himm : w.realtimeGaugeUpdates = true ∨ signal_name.lower ∈ w.criticalSignals <;>
    cases hdg : dictGet w.indicators signal_name.lower <;>
      by_cases hdisp : signal_name.lower ∈ w.displays <;>
        by_cases hgear : signal_name.lower = "gear" ∨
            signal_name.lower = "current_gear" <;>
          simp [himm, hdg, hdisp, hgear, dictGet_dictInsert]

/-- C5, witness: a buffered sample (`realtime = false`, non-critical
name) on a window with a registered gauge for `"coolant_temp"`. -/
theorem c5_dispatch_classification_witness :
    (¬ ((([] : List String) ≠ []) ∧ "coolant_temp".lower ∉ ([] : List String)) ∧
      "coolant_temp".lower ∈ ["coolant_temp"]) ∧
    ((SinkCall.gaugeSet "coolant_temp".lower 90 ∈
        (update_display_data ⟨[], false, ["rpm"], ["coolant_temp"], [], [], []⟩
          "coolant_temp" 90 7).2 ↔
      (false = true ∨ "coolant_temp".lower ∈ ["rpm"])) ∧
    ((false = true ∨ "coolant_temp".lower ∈ ["rpm"]) →
      (update_display_data ⟨[], false, ["rpm"], ["coolant_temp"], [], [], []⟩
        "coolant_temp" 90 7).1 = ⟨[], false, ["rpm"], ["coolant_temp"], [], [], []⟩) ∧
    (¬ (false = true ∨ "coolant_temp".lower ∈ ["rpm"]) →
      (update_display_data ⟨[], false, ["rpm"], ["coolant_temp"], [], [], []⟩
        "coolant_temp" 90 7).1.pending =
          dictInsert [] "coolant_temp" ⟨90, 7⟩ ∧
      dictGet (update_display_data ⟨[], false, ["rpm"], ["coolant_temp"], [], [], []⟩
        "coolant_temp" 90 7).1.pending "coolant_temp" = some ⟨90, 7⟩)) :=
  ⟨⟨by simp, by decide⟩,
    c5_dispatch_classification ⟨[], false, ["rpm"], ["coolant_temp"], [], [], []⟩
      "coolant_temp" 90 7 (by simp) (by decide)⟩

/-- C6: each flush of the pending buffer empties it; every entry whose
lowercased name has a registered gauge produces the corresponding gauge
application, every performed call comes from such an entry, and a flush
starting from an empty buffer performs no sink calls. -/
theorem c6_flush_pending_buffer (w : MainWindow) :
    (processPendingUpdates w).1.pending = [] ∧
    (∀ n e, (n, e) ∈ w.pending → n.lower ∈ w.gauges →
      SinkCall.gaugeSet n.lower e.value ∈ (processPendingUpdates w).2) ∧
    (∀ c ∈ (processPendingUpdates w).2, ∃ n e, (n, e) ∈ w.pending ∧
      n.lower ∈ w.gauges ∧ c = SinkCall.gaugeSet n.lower e.value) ∧
    (w.pending = [] → (processPendingUpdates w).2 = []) := by
  unfold processPendingUpdates
  by_cases h : w.pending = []
  · simp [h]
  · simp only [if_neg h]
    refine ⟨by simp, ?_, ?_, fun hc => absurd hc h⟩
    · intro n e hmem hgauge
      rw [List.mem_filterMap]
      exact ⟨(n, e), hmem, by simp [hgauge]⟩
    · intro c hc
      rw [List.mem_filterMap] at hc
      obtain ⟨⟨n, e⟩, hmem, hf⟩ := hc
      by_cases hgauge : n.lower ∈ w.gauges
      · rw [if_pos hgauge] at hf
        exact ⟨n, e, hmem, hgauge, (Option.some_inj.mp hf).symm⟩
      · rw [if_neg hgauge] at hf
        exact absurd hf (by simp)

/-- C10: for a rate-limited signal, a sample whose value fails the float
conversion still updates the last-accepted timestamp (the state update
precedes the conversion attempt), so it consumes the rate-limit window: a
subsequent numerically valid sample for the same signal arriving less than
`minInterval` later is rejected and never emitted, and the limiter state is
left exactly as the failed sample set it. -/
theorem c10_invalid_value_consumes_window (cfg : FilterConfig) (st : FilterState)
    (k : ℚ) (now1 now2 q : ℚ) (name : String)
    (hrl : dictGet cfg.rateLimits name.lower = some k)
    (hwl : ¬ (cfg.whitelist ≠ [] ∧ name.lower ∉ cfg.whitelist))
    (hbl : name.lower ∉ cfg.blacklist)
    (hacc : ¬ (now1 - (dictGet st.lastEmit name.lower).getD 0 < k))
    (hwin : now2 - now1 < k) :
    processSignal cfg st now1 name Value.invalid =
      (⟨dictInsert st.lastEmit name.lower now1⟩, none) ∧
    dictGet (dictInsert st.lastEmit name.lower now1) name.lower = some now1 ∧
    processSignal cfg ⟨dictInsert st.lastEmit name.lower now1⟩ now2 name (Value.num q) =
      (⟨dictInsert st.lastEmit name.lower now1⟩, none) := by
  have hget : dictGet (dictInsert st.lastEmit name.lower now1) name.lower = some now1 := by
    rw [dictGet_dictInsert]; simp
  refine ⟨?_, hget, ?_⟩
  · simp [processSignal, if_neg hwl, hbl, hrl, if_neg hacc, tryEmit]
  · simp [processSignal, if_neg hwl, hbl, hrl, hget]
    intro hge
    linarith

/-- C10, witness: limiter `{"rpm": 1}`, empty state, an invalid value at
`now = 5` followed by a valid one at `now = 5.5`. -/
theorem c10_invalid_value_consumes_window_witness :
    (dictGet [("rpm", (1 : ℚ))] "rpm".lower = some 1 ∧
      ¬ ((([] : List String) ≠ []) ∧ "rpm".lower ∉ ([] : List String)) ∧
      "rpm".lower ∉ ([] : List String) ∧
      ¬ ((5 : ℚ) - (dictGet ([] : List (String × ℚ)) "rpm".lower).getD 0 < 1) ∧
      (11/2 : ℚ) - 5 < 1) ∧
    (processSignal ⟨[], [], [("rpm", 1)], 0, true⟩ ⟨[]⟩ 5 "rpm" Value.invalid =
      (⟨dictInsert [] "rpm".lower 5⟩, none) ∧
    dictGet (dictInsert ([] : List (String × ℚ)) "rpm".lower 5) "rpm".lower = some 5 ∧
    processSignal ⟨[], [], [("rpm", 1)], 0, true⟩ ⟨dictInsert [] "rpm".lower 5⟩
        (11/2) "rpm" (Value.num 7) = (⟨dictInsert [] "rpm".lower 5⟩, none)) :=
  by
  refine ⟨⟨by decide, by simp, by decide, by norm_num [dictGet], by norm_num⟩, ?_⟩
  have h := c10_invalid_value_consumes_window ⟨[], [], [("rpm", 1)], 0, true⟩ ⟨[]⟩ 1 5
    (11/2) 7 "rpm" (by decide) (by simp) (by decide) (by norm_num [dictGet]) (by norm_num)
  simpa using h

/-- C3: a signal entry of a processed decoded envelope is emitted toward
sinks only if the whitelist is empty or contains the lowercased name, and
the lowercased name is not blacklisted. -/
theorem c3_whitelist_blacklist_gate (cfg : FilterConfig) (clock : Nat → ℚ)
    (st : FilterState) (m : Envelope) (n : String) (q : ℚ)
    (h : Emission.signal n q ∈ (processMessage cfg clock st m).2) :
    (cfg.whitelist = [] ∨ n.lower ∈ cfg.whitelist) ∧ n.lower ∉ cfg.blacklist := by
  have key : ∀ (entries : List (String × Value)) (i : Nat) (st' : FilterState),
      (n, q) ∈ (processEntries cfg clock i st' entries).2 →
      (cfg.whitelist = [] ∨ n.lower ∈ cfg.whitelist) ∧ n.lower ∉ cfg.blacklist := by
    intro entries
    induction entries with
    | nil => intro i st' hmem; simp [processEntries] at hmem
    | cons e rest ih =>
        intro i st' hmem
        obtain ⟨en, ev⟩ := e
        simp only [processEntries, List.mem_append] at hmem
        cases hmem with
        | inl hhead =>
            rw [Option.mem_toList, Option.mem_def] at hhead
            obtain ⟨hn, hgate⟩ :=
              processSignal_some_gate cfg st' (clock i) en ev n q hhead
            rw [hn]
            exact hgate
        | inr hrest => exact ih (i + 1) _ hrest
  match m with
  | .raw t idh dh =>
      simp [processMessage] at h
  | .decoded t idh nm data =>
      simp only [processMessage, List.mem_cons] at h
      cases h with
      | inl habs => simp at habs
      | inr hmem =>
          rw [List.mem_map] at hmem
          obtain ⟨⟨pn, pq⟩, hp, heq⟩ := hmem
          simp only [Emission.signal.injEq] at heq
          obtain ⟨rfl, rfl⟩ := heq
          exact key _ _ _ hp

/-- C3, witness: an unrestricted configuration emits `("rpm", 5)` from a
one-signal decoded envelope, and the gate condition holds for it. -/
theorem c3_whitelist_blacklist_gate_witness :
    (Emission.signal "rpm" 5 ∈
      (processMessage ⟨[], [], [], 0, true⟩ (fun _ => 0) ⟨[]⟩
        (Envelope.decoded 0 "1A" "m" [("rpm", Value.num 5)])).2) ∧
    ((([] : List String) = [] ∨ "rpm".lower ∈ ([] : List String)) ∧
      "rpm".lower ∉ ([] : List String)) :=
  ⟨by decide,
    c3_whitelist_blacklist_gate ⟨[], [], [], 0, true⟩ (fun _ => 0) ⟨[]⟩
      (Envelope.decoded 0 "1A" "m" [("rpm", Value.num 5)]) "rpm" 5 (by decide)⟩

/-- C2, counterexample: a drained burst consisting of one Raw envelope
yields no `_process_message` call at all under `collapse_latest` — with or
without merging — so its raw handler is not invoked once, contradicting
the claim that every Raw envelope passes through individually. -/
theorem c2_raw_dropped_counterexample :
    (pollCollapseLatest ⟨[], [], [], 0, true⟩ (fun _ => 0) ⟨[]⟩ true
      [Envelope.raw 0 "1A" "FF"]).2 = [] ∧
    (pollCollapseLatest ⟨[], [], [], 0, true⟩ (fun _ => 0) ⟨[]⟩ false
      [Envelope.raw 0 "1A" "FF"]).2 = [] ∧
    Emission.rawMsg (Envelope.raw 0 "1A" "FF") ∉
      (pollCollapseLatest ⟨[], [], [], 0, true⟩ (fun _ => 0) ⟨[]⟩ true
        [Envelope.raw 0 "1A" "FF"]).2 := by
  refine ⟨rfl, rfl, ?_⟩
  intro h
  simp [pollCollapseLatest, collapseLatestDispatch, collapseMerge, firstDecoded,
    Envelope.isDecoded, processMessages] at h

/-- C2, amended: under the `collapse_latest` strategy, Raw envelopes never
pass through: every drained Raw envelope is discarded (the merge branch
skips non-decoded messages and the non-merge branch dispatches only the
last Decoded one), so no poll tick ever invokes the raw-message handler,
for any drained burst. -/
theorem c2_collapse_drops_raw (cfg : FilterConfig) (clock : Nat → ℚ)
    (st : FilterState) (mergeFlag : Bool) (msgs : List Envelope) :
    ((pollCollapseLatest cfg clock st mergeFlag msgs).2.filter
      Emission.isRawMsg) = [] := by
  unfold pollCollapseLatest
  have hall := collapseDispatch_all_decoded mergeFlag msgs
  revert hall
  generalize collapseLatestDispatch mergeFlag msgs = l
  intro hall
  induction l generalizing st with
  | nil => rfl
  | cons m rest ih =>
      simp only [processMessages, List.filter_append]
      rw [processMessage_no_raw cfg clock st m (hall m (List.mem_cons_self m rest)),
        ih _ (fun x hx => hall x (List.mem_cons_of_mem m hx))]
      rfl

/-- C1: under `collapse_latest` with merging, a burst holding at least one
decoded envelope (each with duplicate-free data keys, as every JSON object
has) is dispatched as exactly one synthetic decoded envelope whose data
map holds, for every signal key, the value from the last drained decoded
envelope that contains that key (last-write-wins per key, independently
across keys); in particular, for a burst all containing signal `S` with
values `v1..vN`, the merged value for `S` is `vN`. -/
theorem c1_collapse_merge_last_wins (msgs : List Envelope)
    (hnd : ∀ m ∈ msgs, m.keysNodup)
    (hdec : ∃ m ∈ msgs, m.isDecoded = true) :
    ∃ t idh n d, collapseLatestDispatch true msgs = [Envelope.decoded t idh n d] ∧
      ∀ s, dictGet d s = specLastValue msgs s := by
  obtain ⟨fd, hfd⟩ := firstDecoded_isSome msgs hdec
  have hne : msgs ≠ [] := by
    rintro rfl
    simp [firstDecoded] at hfd
  cases fd with
  | raw t idh dh =>
      have := firstDecoded_isDecoded msgs _ hfd
      simp [Envelope.isDecoded] at this
  | decoded t idh n data =>
      refine ⟨t, idh, n, buildSignalMap msgs [], ?_, ?_⟩
      · unfold collapseLatestDispatch collapseMerge
        rw [if_neg hne, if_pos rfl, hfd]
        rfl
      · intro s
        rw [dictGet_buildSignalMap msgs [] s hnd]
        cases h : specLastValue msgs s <;> simp [dictGet]

/-- C1, witness: the end-to-end burst of five decoded `"rpm"` envelopes
with values 1000..5000 — one synthetic envelope, `"rpm"` valued 5000. -/
theorem c1_collapse_merge_last_wins_witness :
    ((∀ m ∈ [Envelope.decoded 1 "1A" "m" [("rpm", Value.num 1000)],
        Envelope.decoded 2 "1A" "m" [("rpm", Value.num 2000)],
        Envelope.decoded 3 "1A" "m" [("rpm", Value.num 3000)],
        Envelope.decoded 4 "1A" "m" [("rpm", Value.num 4000)],
        Envelope.decoded 5 "1A" "m" [("rpm", Value.num 5000)]], m.keysNodup) ∧
      (∃ m ∈ [Envelope.decoded 1 "1A" "m" [("rpm", Value.num 1000)],
        Envelope.decoded 2 "1A" "m" [("rpm", Value.num 2000)],
        Envelope.decoded 3 "1A" "m" [("rpm", Value.num 3000)],
        Envelope.decoded 4 "1A" "m" [("rpm", Value.num 4000)],
        Envelope.decoded 5 "1A" "m" [("rpm", Value.num 5000)]], m.isDecoded = true)) ∧
    (∃ t idh n d,
      collapseLatestDispatch true
        [Envelope.decoded 1 "1A" "m" [("rpm", Value.num 1000)],
         Envelope.decoded 2 "1A" "m" [("rpm", Value.num 2000)],
         Envelope.decoded 3 "1A" "m" [("rpm", Value.num 3000)],
         Envelope.decoded 4 "1A" "m" [("rpm", Value.num 4000)],
         Envelope.decoded 5 "1A" "m" [("rpm", Value.num 5000)]] =
        [Envelope.decoded t idh n d] ∧
      ∀ s, dictGet d s = specLastValue
        [Envelope.decoded 1 "1A" "m" [("rpm", Value.num 1000)],
         Envelope.decoded 2 "1A" "m" [("rpm", Value.num 2000)],
         Envelope.decoded 3 "1A" "m" [("rpm", Value.num 3000)],
         Envelope.decoded 4 "1A" "m" [("rpm", Value.num 4000)],
         Envelope.decoded 5 "1A" "m" [("rpm", Value.num 5000)]] s) := by
  constructor
  · constructor
    · intro m hm
      simp only [List.mem_cons, List.not_mem_nil, or_false] at hm
      rcases hm with rfl | rfl | rfl | rfl | rfl <;> decide
    · exact ⟨Envelope.decoded 1 "1A" "m" [("rpm", Value.num 1000)], by simp,
        rfl⟩
  · apply c1_collapse_merge_last_wins
    · intro m hm
      simp only [List.mem_cons, List.not_mem_nil, or_false] at hm
      rcases hm with rfl | rfl | rfl | rfl | rfl <;> decide
    · exact ⟨Envelope.decoded 1 "1A" "m" [("rpm", Value.num 1000)], by simp,
        rfl⟩

/-- Every emission for a rate-limited signal in a trace happens at least
`k` after the limiter state the trace started from. -/
theorem runTrace_emission_lb (cfg : FilterConfig) (sigL : String) (k : ℚ)
    (hrl : dictGet cfg.rateLimits sigL = some k) (hk : 0 ≤ k) :
    ∀ (evs : List (ℚ × String × Value)) (st : FilterState),
      ∀ t ∈ emissionTimesFor sigL (runTrace cfg st evs).2,
        (dictGet st.lastEmit sigL).getD 0 + k ≤ t := by
  intro evs
  induction evs with
  | nil =>
      intro st t ht
      simp [runTrace, emissionTimesFor] at ht
  | cons e rest ih =>
      intro st t ht
      obtain ⟨now, en, v⟩ := e
      simp only [runTrace, emissionTimesFor, List.filterMap_append] at ht
      rw [List.mem_append] at ht
      rcases ht with hthead | htrest
      · rcases hr : (processSignal cfg st now en v).2 with _ | ⟨nm, q⟩
        · rw [hr] at hthead; simp at hthead
        · rw [hr] at hthead
          obtain ⟨hnm, -, -⟩ := processSignal_some_gate cfg st now en v nm q hr
          subst hnm
          by_cases hen : nm.lower = sigL
          · simp only [List.filterMap, hen, if_pos rfl] at hthead
            simp at hthead
            rw [hthead]
            rcases processSignal_cases cfg st now nm v with hc | hc | hc
            · rw [hc.2] at hr; exact absurd hr (by simp)
            · rw [hen] at hc
              rw [hc.2.1] at hrl
              exact absurd hrl (by simp)
            · obtain ⟨k', hk', hacc, -, -⟩ := hc
              rw [hen, hrl] at hk'
              obtain rfl : k = k' := by simpa using hk'
              rw [hen] at hacc
              linarith [not_lt.mp hacc]
          · simp [hen] at hthead
      · have hb := ih (processSignal cfg st now en v).1 t htrest
        by_cases hen : en.lower = sigL
        · rcases processSignal_cases cfg st now en v with hc | hc | hc
          · rw [hc.1] at hb; exact hb
          · rw [hc.1] at hb; exact hb
          · obtain ⟨k', hk', hacc, hst, -⟩ := hc
            rw [hen, hrl] at hk'
            obtain rfl : k = k' := by simpa using hk'
            rw [hen] at hacc hst
            rw [hst] at hb
            simp only at hb
            rw [dictGet_dictInsert] at hb
            simp at hb
            have hLnow := not_lt.mp hacc
            linarith
        · rw [processSignal_other_key cfg st now en v sigL hen] at hb
          exact hb

/-- Emissions for a rate-limited signal in any trace are pairwise at least
`k` apart, in acceptance order. -/
theorem runTrace_pairwise_gap (cfg : FilterConfig) (sigL : String) (k : ℚ)
    (hrl : dictGet cfg.rateLimits sigL = some k) (hk : 0 ≤ k) :
    ∀ (evs : List (ℚ × String × Value)) (st : FilterState),
      List.Pairwise (fun a b => a + k ≤ b)
        (emissionTimesFor sigL (runTrace cfg st evs).2) := by
  intro evs
  induction evs with
  | nil => intro st; simp [runTrace, emissionTimesFor]
  | cons e rest ih =>
      intro st
      obtain ⟨now, en, v⟩ := e
      simp only [runTrace, emissionTimesFor, List.filterMap_append]
      rw [List.pairwise_append]
      refine ⟨?_, ih _, ?_⟩
      · rcases hr : (processSignal cfg st now en v).2 with _ | ⟨nm, q⟩ <;>
          simp only
        · simp
        · by_cases hen : nm.lower = sigL <;> simp [hen]
      · intro a ha b hb
        rcases hr : (processSignal cfg st now en v).2 with _ | ⟨nm, q⟩
        · rw [hr] at ha; simp at ha
        · rw [hr] at ha
          obtain ⟨hnm, -, -⟩ := processSignal_some_gate cfg st now en v nm q hr
          subst hnm
          by_cases hen : nm.lower = sigL
          · simp [hen] at ha
            rw [ha]
            rcases processSignal_cases cfg st now nm v with hc | hc | hc
            · rw [hc.2] at hr; exact absurd hr (by simp)
            · rw [hen] at hc
              rw [hc.2.1] at hrl
              exact absurd hrl (by simp)
            · obtain ⟨k', hk', hacc, hst, -⟩ := hc
              rw [hen, hrl] at hk'
              obtain rfl : k = k' := by simpa using hk'
              have hbge := runTrace_emission_lb cfg sigL k hrl hk rest
                (processSignal cfg st now nm v).1 b hb
              rw [hen] at hst
              rw [hst] at hbge
              simp only at hbge
              rw [dictGet_dictInsert] at hbge
              simp at hbge
              exact hbge
          · simp [hen] at ha

/-- C4, counterexample: with `minInterval = 1` for `"rpm"` and no sample
ever accepted, a first sample processed at monotonic time `0.5` is
rejected by the rate limiter (the missing-entry default is time `0`),
although the claim says a sample with no prior acceptance is never
rejected. -/
theorem c4_first_sample_rejected_counterexample :
    processSignal ⟨[], [], [("rpm", 1)], 0, true⟩ ⟨[]⟩ (1/2) "rpm" (Value.num 5) =
      (⟨[]⟩, none) := by
  have hlow : "rpm".lower = "rpm" := by decide
  norm_num [processSignal, hlow, dictGet, tryEmit]

/-- C4, amended: for a signal with configured minimum interval `k ≥ 0`,
the acceptance times of any trace's emitted samples are pairwise at least
`k` apart (so any two accepted samples are at least `k` apart on the
monotonic clock), and a numerically valid sample arriving at least `k`
after the stored last-accepted time — which defaults to monotonic time `0`
when no sample was ever accepted, so a first-ever sample is accepted iff
`now ≥ k` — passes the whitelist/blacklist gates and the limiter and is
emitted, stamping the limiter with its time. -/
theorem c4_rate_limit_separation (cfg : FilterConfig) (st : FilterState)
    (sigL name : String) (k q now : ℚ) (evs : List (ℚ × String × Value))
    (hrl : dictGet cfg.rateLimits sigL = some k) (hk : 0 ≤ k)
    (hname : name.lower = sigL)
    (hwl : ¬ (cfg.whitelist ≠ [] ∧ name.lower ∉ cfg.whitelist))
    (hbl : name.lower ∉ cfg.blacklist)
    (hgap : (dictGet st.lastEmit sigL).getD 0 + k ≤ now) :
    List.Pairwise (fun a b => a + k ≤ b)
      (emissionTimesFor sigL (runTrace cfg st evs).2) ∧
    processSignal cfg st now name (Value.num q) =
      (⟨dictInsert st.lastEmit name.lower now⟩, some (name, q)) := by
  constructor
  · exact runTrace_pairwise_gap cfg sigL k hrl hk evs st
  · rw [hname] at hwl hbl ⊢
    simp [processSignal, hwl, hbl, hname, hrl, tryEmit]
    linarith

/-- C4, witness: limiter `{"rpm": 1}`; in the trace, samples at times
5, 5.5 and 6.5 are accepted, rejected and accepted (gap 1.5 ≥ 1); the
extra sample at time 20 on a fresh state is accepted and emitted. -/
theorem c4_rate_limit_separation_witness :
    (dictGet [("rpm", (1:ℚ))] "rpm" = some 1 ∧ (0:ℚ) ≤ 1 ∧
      "rpm".lower = "rpm" ∧
      ¬ ((([] : List String) ≠ []) ∧ "rpm".lower ∉ ([] : List String)) ∧
      "rpm".lower ∉ ([] : List String) ∧
      (dictGet ([] : List (String × ℚ)) "rpm").getD 0 + 1 ≤ (20:ℚ)) ∧
    (List.Pairwise (fun a b => a + 1 ≤ b)
      (emissionTimesFor "rpm"
        (runTrace ⟨[], [], [("rpm", 1)], 0, true⟩ ⟨[]⟩
          [(5, "rpm", Value.num 10), (11/2, "rpm", Value.num 20),
           (13/2, "rpm", Value.num 30)]).2) ∧
    processSignal ⟨[], [], [("rpm", 1)], 0, true⟩ ⟨[]⟩ 20 "rpm" (Value.num 7) =
      (⟨dictInsert [] "rpm".lower 20⟩, some ("rpm", 7))) := by
  constructor
  · refine ⟨by decide, by norm_num, by decide, by simp, by decide, ?_⟩
    norm_num [dictGet]
  · have h := c4_rate_limit_separation ⟨[], [], [("rpm", 1)], 0, true⟩ ⟨[]⟩ "rpm" "rpm"
      1 7 20 [(5, "rpm", Value.num 10), (11/2, "rpm", Value.num 20),
        (13/2, "rpm", Value.num 30)]
      (by decide) (by norm_num) (by decide) (by simp) (by decide)
      (by norm_num [dictGet])
    simpa using h

end CanFrontend
